import Mathlib

/-!
Shallow embedding of the aggregation-and-ranking core of
`lambda_s3_cost_report.py`.

Modelling conventions:
* Python `float` values are modelled as rational numbers (`ℚ`); Python `int`
  as `ℤ`.
* `float(s)` / `int(float(s))` on strings are modelled by `parseFloat?`,
  which implements the decimal-literal grammar (optional sign, digits with
  an optional decimal point, optional exponent).  Exotic float syntax
  (surrounding whitespace, underscores, infinities, NaN) is not modelled.
* The Python `dict` `prefixes` (insertion ordered) is modelled as an
  association list in insertion order (`dictSet` updates in place, appends
  new keys at the end).
* `sorted(xs, key=k, reverse=True)` is modelled by `sortDescBy k`, a stable
  descending insertion sort, matching CPython's stable sort semantics.
* The slice `xs[:n]` is modelled by `pyTake n`, including Python's
  negative-index semantics.
-/

/- The Batteries rational-number operations are `@[irreducible]`; concrete
evaluation in proofs below needs them to unfold. -/
attribute [local semireducible] Rat.add Rat.mul Rat.inv Rat.sub

/-! ## Numeric string parsing (`float_or_zero` / `int_or_zero`, lines 114-125) -/

/-- Numeric value of a decimal digit character. -/
def digitVal (c : Char) : ℕ := c.toNat - 48

/-- All characters are decimal digits. -/
def allDigits (cs : List Char) : Bool := cs.all Char.isDigit

/-- Value of a digit string read in base 10. -/
def digitsToNat (cs : List Char) : ℕ := cs.foldl (fun a c => 10 * a + digitVal c) 0

/-- Split a character list at the first character satisfying `p`:
returns the part before it and, if found, the part after it. -/
def splitFirst (p : Char → Bool) : List Char → List Char × Option (List Char)
  | [] => ([], none)
  | c :: cs =>
    if p c then ([], some cs)
    else
      let r := splitFirst p cs
      (c :: r.1, r.2)

/-- Consume an optional leading sign; returns (isNegative, rest). -/
def parseSign : List Char → Bool × List Char
  | '-' :: cs => (true, cs)
  | '+' :: cs => (false, cs)
  | cs => (false, cs)

/-- Parse an unsigned decimal mantissa `digits[.digits]` (at least one digit
overall, as in Python's `float` grammar). -/
def parseUnsigned (cs : List Char) : Option ℚ :=
  let s := splitFirst (fun c => c = '.') cs
  let ip := s.1
  let fp := s.2.getD []
  if allDigits ip ∧ allDigits fp ∧ (ip ≠ [] ∨ fp ≠ []) then
    some ((digitsToNat ip : ℚ) + (digitsToNat fp : ℚ) / (10 : ℚ) ^ fp.length)
  else
    none

/-- Parse an exponent part: optional sign then a nonempty digit string. -/
def parseExp (cs : List Char) : Option ℤ :=
  let s := parseSign cs
  if s.2 ≠ [] ∧ allDigits s.2 then
    some (if s.1 then -(digitsToNat s.2 : ℤ) else (digitsToNat s.2 : ℤ))
  else
    none

/-- Model of Python `float(s)` on decimal literals: optional sign, mantissa,
optional `e`/`E` exponent.  `none` models a raised `ValueError`. -/
def parseFloat? (s : String) : Option ℚ :=
  let sg := parseSign s.toList
  let sp := splitFirst (fun c => c = 'e' ∨ c = 'E') sg.2
  match parseUnsigned sp.1 with
  | none => none
  | some q =>
    let q := if sg.1 then -q else q
    match sp.2 with
    | none => some q
    | some es =>
      match parseExp es with
      | none => none
      | some e => some (q * (10 : ℚ) ^ e)

/-- Truncation toward zero, the semantics of Python `int(float)`. -/
def truncQ (q : ℚ) : ℤ := if q < 0 then Rat.ceil q else Rat.floor q

/-- `float_or_zero` (source lines 114-118): parse as float, 0.0 on failure. -/
def float_or_zero (s : String) : ℚ :=
  match parseFloat? s with
  | some q => q
  | none => 0

/-- `int_or_zero` (source lines 121-125): `int(float(val))`, 0 on failure. -/
def int_or_zero (s : String) : ℤ :=
  match parseFloat? s with
  | some q => truncQ q
  | none => 0

/-- `bytes_to_gb` (source lines 128-130): bytes / 1024³. -/
def bytes_to_gb (num_bytes : ℤ) : ℚ := (num_bytes : ℚ) / (1024 ^ 3 : ℚ)

/-! ## Data model -/

/-- One normalized result row (the Row Normalizer's output, source lines
216-224).  The first field is the object-key path segment used for grouping;
its source name is a reserved keyword in Lean, so it is called `pfx` here. -/
structure Measurement where
  pfx : String
  storage_class : String
  itt : String
  object_count : ℤ
  total_size : ℤ
  estimated_cost : ℚ
deriving DecidableEq, Repr

/-- One breakdown entry appended per measurement (source lines 240-246). -/
structure Breakdown where
  storage_class : String
  intelligent_tiering_access_tier : String
  object_count : ℤ
  total_size_bytes : ℤ
  estimated_cost_usd : ℚ
deriving DecidableEq, Repr

/-- Per `(table, pfx)` accumulator (source lines 227-246). -/
structure PrefixAccumulator where
  table : String
  pfx : String
  total_size_bytes : ℤ
  total_objects : ℤ
  total_cost_usd : ℚ
  breakdown : List Breakdown
deriving DecidableEq, Repr

/-- Accumulator key: (table, first path segment). -/
abbrev Key := String × String

/-- The `prefixes` dict, as an insertion-ordered association list. -/
abbrev AccMap := List (Key × PrefixAccumulator)

/-! ## Row Normalizer (source lines 216-224) -/

/-- Normalize one raw CSV row, mirroring the loop body guards:
rows with fewer than 6 fields are skipped (`none`); empty first field becomes
`"(empty)"`, empty storage class becomes `"UNKNOWN"`, numeric fields go
through `int_or_zero` / `float_or_zero`. -/
def normalizeRow (row : List String) : Option Measurement :=
  if row.length < 6 then none
  else
    some
      { pfx := if row.getD 0 "" = "" then "(empty)" else row.getD 0 ""
        storage_class := if row.getD 1 "" = "" then "UNKNOWN" else row.getD 1 ""
        itt := row.getD 2 ""
        object_count := int_or_zero (row.getD 3 "")
        total_size := int_or_zero (row.getD 4 "")
        estimated_cost := float_or_zero (row.getD 5 "") }

/-! ## Aggregator (source lines 226-246) -/

/-- Association-list lookup (Python `key in prefixes` / `prefixes[key]`). -/
def lookupAcc : AccMap → Key → Option PrefixAccumulator
  | [], _ => none
  | (k', a) :: rest, k => if k' = k then some a else lookupAcc rest k

/-- Association-list store with Python-dict semantics: replace in place if
the key exists, append at the end otherwise. -/
def dictSet : AccMap → Key → PrefixAccumulator → AccMap
  | [], k, v => [(k, v)]
  | (k', v') :: rest, k, v =>
    if k' = k then (k, v) :: rest else (k', v') :: dictSet rest k v

/-- Fresh accumulator with zeroed totals (source lines 228-235). -/
def emptyAcc (table pfx : String) : PrefixAccumulator :=
  { table := table, pfx := pfx, total_size_bytes := 0, total_objects := 0,
    total_cost_usd := 0, breakdown := [] }

/-- Fold one measurement into an accumulator: add to the three running totals
and append one breakdown entry (source lines 237-246). -/
def applyMeasurement (a : PrefixAccumulator) (m : Measurement) : PrefixAccumulator :=
  { a with
    total_size_bytes := a.total_size_bytes + m.total_size
    total_objects := a.total_objects + m.object_count
    total_cost_usd := a.total_cost_usd + m.estimated_cost
    breakdown := a.breakdown ++
      [{ storage_class := m.storage_class,
         intelligent_tiering_access_tier := m.itt,
         object_count := m.object_count,
         total_size_bytes := m.total_size,
         estimated_cost_usd := m.estimated_cost }] }

/-- Process one raw row for one table: normalize it, then create-or-update
the accumulator at `(table, pfx)` (source lines 216-246). -/
def addRow (table : String) (ps : AccMap) (row : List String) : AccMap :=
  match normalizeRow row with
  | none => ps
  | some m =>
    let key : Key := (table, m.pfx)
    let acc := (lookupAcc ps key).getD (emptyAcc table m.pfx)
    dictSet ps key (applyMeasurement acc m)

/-- Aggregate a stream of (table, raw row) pairs into the accumulator map,
starting from the empty dict (source lines 145, 216-246). -/
def aggregate (rows : List (String × List String)) : AccMap :=
  rows.foldl (fun ps tr => addRow tr.1 ps tr.2) []

/-! ## Ranker (source lines 248-252) -/

/-- Insert `x` into a descending-sorted list, after all elements whose key is
greater than or equal to `key x` (stability: later arrivals go after ties). -/
def insertDescBy (key : α → ℚ) (x : α) : List α → List α
  | [] => [x]
  | y :: ys => if key x ≤ key y then y :: insertDescBy key x ys else x :: y :: ys

/-- Stable descending sort by a rational key, the model of
`sorted(xs, key=..., reverse=True)`. -/
def sortDescBy (key : α → ℚ) (l : List α) : List α :=
  l.foldl (fun acc x => insertDescBy key x acc) []

/-- Python slice `xs[:n]` for an integer `n`, including the negative case
(`xs[:-k]` keeps all but the last `k` elements). -/
def pyTake (n : ℤ) (l : List α) : List α :=
  if 0 ≤ n then l.take n.toNat else l.take (l.length - (-n).toNat)

/-- `all_prefixes` (source lines 249-251): the tuple list
`(table, pfx, total_cost_usd, data)` in dict iteration order. -/
def allPrefixes (ps : AccMap) : List (String × String × ℚ × PrefixAccumulator) :=
  ps.map fun kv => (kv.1.1, kv.1.2, kv.2.total_cost_usd, kv.2)

/-- `top_prefixes` (source line 252): sort by total cost descending and take
the first `TOP_N` entries with Python slice semantics. -/
def topPrefixes (topN : ℤ) (ps : AccMap) : List (String × String × ℚ × PrefixAccumulator) :=
  pyTake topN (sortDescBy (fun e => e.2.2.1) (allPrefixes ps))

/-! ## Report Renderer (source lines 255-304) -/

/-- Left-pad a string with zeros to length `k`. -/
def padZeros (k : ℕ) (s : String) : String :=
  String.mk (List.replicate (k - s.length) '0') ++ s

/-- Round to the nearest integer, ties to even (IEEE-754 / Python `format`
rounding). -/
def roundHalfEven (q : ℚ) : ℤ :=
  let f : ℤ := Rat.floor q
  let r : ℚ := q - (f : ℚ)
  if r < 1 / 2 then f
  else if 1 / 2 < r then f + 1
  else if f % 2 = 0 then f else f + 1

/-- Fixed-point rendering of a non-negative rational with 6 fractional
digits. -/
def formatFixed6Pos (q : ℚ) : String :=
  let n := (roundHalfEven (q * 1000000)).toNat
  toString (n / 1000000) ++ "." ++ padZeros 6 (toString (n % 1000000))

/-- Model of the Python format `f"{q:.6f}"`. -/
def formatFixed6 (q : ℚ) : String :=
  if q < 0 then "-" ++ formatFixed6Pos (-q) else formatFixed6Pos q

/-- Summary row for one ranked accumulator (source lines 275-287): rank,
table, pfx, totals; tier cells blank. -/
def summaryRow (rank : ℕ) (a : PrefixAccumulator) : List String :=
  [toString rank, a.table, a.pfx,
   formatFixed6 a.total_cost_usd,
   formatFixed6 (bytes_to_gb a.total_size_bytes),
   toString a.total_objects,
   "", "", "", "", ""]

/-- Breakdown row for one tier entry (source lines 289-303): totals cells
blank, tier identity and per-tier figures populated. -/
def breakdownRow (rank : ℕ) (a : PrefixAccumulator) (b : Breakdown) : List String :=
  [toString rank, a.table, a.pfx, "", "", "",
   b.storage_class, b.intelligent_tiering_access_tier,
   toString b.object_count,
   formatFixed6 (bytes_to_gb b.total_size_bytes),
   formatFixed6 b.estimated_cost_usd]

/-- All rows rendered for one ranked accumulator: one summary row, then one
row per breakdown entry, breakdown entries sorted by estimated cost
descending (source lines 271-304). -/
def renderAcc (rank : ℕ) (a : PrefixAccumulator) : List (List String) :=
  summaryRow rank a ::
    (sortDescBy (fun b => b.estimated_cost_usd) a.breakdown).map (breakdownRow rank a)

/-- `report_rows` (source lines 255-304): ranked accumulators rendered in
order with 1-based ranks. -/
def reportRows (ranked : List (String × String × ℚ × PrefixAccumulator)) : List (List String) :=
  (ranked.enum.map fun ie => renderAcc (ie.1 + 1) ie.2.2.2.2).flatten

/-- Number of distinct tier keys (storage class, access tier) present in an
accumulator's breakdown. -/
def distinctTierCount (a : PrefixAccumulator) : ℕ :=
  ((a.breakdown.map fun b => (b.storage_class, b.intelligent_tiering_access_tier)).dedup).length

/-- The running totals of an accumulator agree with the sums over its
breakdown entries. -/
def accInv (a : PrefixAccumulator) : Prop :=
  a.total_cost_usd = (a.breakdown.map Breakdown.estimated_cost_usd).sum ∧
  a.total_size_bytes = (a.breakdown.map Breakdown.total_size_bytes).sum ∧
  a.total_objects = (a.breakdown.map Breakdown.object_count).sum

/-! ## Concrete data used by witness theorems -/

/-- Concrete accumulator used to witness the sum invariant. -/
def wAcc : PrefixAccumulator :=
  { table := "t", pfx := "a", total_size_bytes := 2, total_objects := 1,
    total_cost_usd := 3,
    breakdown := [{ storage_class := "STANDARD",
                    intelligent_tiering_access_tier := "",
                    object_count := 1, total_size_bytes := 2,
                    estimated_cost_usd := 3 }] }

/-- Concrete measurements used to witness merge commutativity. -/
def wM1 : Measurement :=
  { pfx := "p", storage_class := "STANDARD", itt := "", object_count := 1,
    total_size := 100, estimated_cost := 5 }

/-- Second concrete measurement for the merge-commutativity witness. -/
def wM2 : Measurement :=
  { pfx := "p", storage_class := "GLACIER", itt := "", object_count := 2,
    total_size := 50, estimated_cost := mkRat 3 2 }

/-- Concrete malformed row used to witness the normalization contract. -/
def wRow : List String := ["", "", "x", "abc", "7", "oops"]

/-! ## Helper lemmas: sorting -/

theorem insertDescBy_length (key : α → ℚ) (x : α) (l : List α) :
    (insertDescBy key x l).length = l.length + 1 := by
  induction l with
  | nil => rfl
  | cons y ys ih =>
    simp only [insertDescBy]
    split
    · simp [ih]
    · simp

theorem sortDescBy_length (key : α → ℚ) (l : List α) :
    (sortDescBy key l).length = l.length := by
  suffices h : ∀ acc : List α,
      (l.foldl (fun a x => insertDescBy key x a) acc).length = acc.length + l.length by
    simpa using h []
  induction l with
  | nil => intro acc; simp
  | cons y ys ih =>
    intro acc
    rw [List.foldl_cons, ih, insertDescBy_length, List.length_cons]
    omega

theorem mem_insertDescBy {key : α → ℚ} {x a : α} {l : List α}
    (h : a ∈ insertDescBy key x l) : a = x ∨ a ∈ l := by
  induction l with
  | nil => simpa [insertDescBy] using h
  | cons y ys ih =>
    simp only [insertDescBy] at h
    split at h
    · rcases List.mem_cons.1 h with h | h
      · right; rw [h]; exact List.mem_cons_self y ys
      · rcases ih h with h | h
        · left; exact h
        · right; exact List.mem_cons_of_mem _ h
    · rcases List.mem_cons.1 h with h | h
      · left; exact h
      · right; exact h

theorem pairwise_insertDescBy {key : α → ℚ} {x : α} {l : List α}
    (h : l.Pairwise (fun a b => key b ≤ key a)) :
    (insertDescBy key x l).Pairwise (fun a b => key b ≤ key a) := by
  induction l with
  | nil => simp [insertDescBy]
  | cons y ys ih =>
    rw [List.pairwise_cons] at h
    simp only [insertDescBy]
    split
    · rename_i hxy
      rw [List.pairwise_cons]
      refine ⟨fun b hb => ?_, ih h.2⟩
      rcases mem_insertDescBy hb with rfl | hb
      · exact hxy
      · exact h.1 b hb
    · rename_i hxy
      push_neg at hxy
      rw [List.pairwise_cons]
      refine ⟨fun b hb => ?_, List.pairwise_cons.2 h⟩
      rcases List.mem_cons.1 hb with rfl | hb
      · exact le_of_lt hxy
      · exact le_trans (h.1 b hb) (le_of_lt hxy)

theorem pairwise_sortDescBy (key : α → ℚ) (l : List α) :
    (sortDescBy key l).Pairwise (fun a b => key b ≤ key a) := by
  suffices h : ∀ acc : List α, acc.Pairwise (fun a b => key b ≤ key a) →
      (l.foldl (fun a x => insertDescBy key x a) acc).Pairwise (fun a b => key b ≤ key a) by
    exact h [] (by simp)
  induction l with
  | nil => intro acc hacc; simpa using hacc
  | cons y ys ih => intro acc hacc; exact ih _ (pairwise_insertDescBy hacc)

theorem pyTake_sublist (n : ℤ) (l : List α) : (pyTake n l).Sublist l := by
  unfold pyTake
  split
  · exact List.take_sublist _ _
  · exact List.take_sublist _ _

/-! ## Helper lemmas: dict operations -/

theorem mem_dictSet {ps : AccMap} {k : Key} {v : PrefixAccumulator}
    {kv : Key × PrefixAccumulator} (h : kv ∈ dictSet ps k v) :
    kv ∈ ps ∨ kv = (k, v) := by
  induction ps with
  | nil => simpa [dictSet] using h
  | cons hd tl ih =>
    obtain ⟨k', v'⟩ := hd
    simp only [dictSet] at h
    split at h
    · rcases List.mem_cons.1 h with h | h
      · right; exact h
      · left; exact List.mem_cons_of_mem _ h
    · rcases List.mem_cons.1 h with h | h
      · left; rw [h]; exact List.mem_cons_self _ _
      · rcases ih h with h | h
        · left; exact List.mem_cons_of_mem _ h
        · right; exact h

theorem lookupAcc_mem {ps : AccMap} {k : Key} {a : PrefixAccumulator}
    (h : lookupAcc ps k = some a) : (k, a) ∈ ps := by
  induction ps with
  | nil => simp [lookupAcc] at h
  | cons hd tl ih =>
    obtain ⟨k', v'⟩ := hd
    simp only [lookupAcc] at h
    split at h
    · rename_i he
      obtain rfl : v' = a := by injection h
      rw [← he]
      exact List.mem_cons_self _ _
    · exact List.mem_cons_of_mem _ (ih h)

theorem fst_mem_dictSet {ps : AccMap} {k j : Key} {v : PrefixAccumulator}
    (h : j ∈ (dictSet ps k v).map Prod.fst) : j ∈ ps.map Prod.fst ∨ j = k := by
  obtain ⟨kv, hkv, rfl⟩ := List.mem_map.1 h
  rcases mem_dictSet hkv with h' | h'
  · left; exact List.mem_map_of_mem _ h'
  · right; rw [h']

theorem nodup_fst_dictSet {ps : AccMap} {k : Key} {v : PrefixAccumulator}
    (h : (ps.map Prod.fst).Nodup) : ((dictSet ps k v).map Prod.fst).Nodup := by
  induction ps with
  | nil => simp [dictSet]
  | cons hd tl ih =>
    obtain ⟨k', v'⟩ := hd
    simp only [List.map_cons, List.nodup_cons] at h
    simp only [dictSet]
    split
    · rename_i he
      rw [← he]
      simp only [List.map_cons, List.nodup_cons]
      exact h
    · rename_i he
      simp only [List.map_cons, List.nodup_cons]
      refine ⟨fun hmem => ?_, ih h.2⟩
      rcases fst_mem_dictSet hmem with hmem | hmem
      · exact h.1 hmem
      · exact he hmem

/-! ## Helper lemmas: aggregation invariant -/

theorem emptyAcc_inv (t p : String) : accInv (emptyAcc t p) := by
  simp [accInv, emptyAcc]

theorem applyMeasurement_inv {a : PrefixAccumulator} (m : Measurement)
    (h : accInv a) : accInv (applyMeasurement a m) := by
  obtain ⟨h1, h2, h3⟩ := h
  refine ⟨?_, ?_, ?_⟩ <;>
    simp [applyMeasurement, List.map_append, List.sum_append, h1, h2, h3]

theorem addRow_inv {t : String} {ps : AccMap} {row : List String}
    (h : ∀ kv ∈ ps, accInv kv.2) : ∀ kv ∈ addRow t ps row, accInv kv.2 := by
  intro kv hkv
  unfold addRow at hkv
  cases hm : normalizeRow row with
  | none => rw [hm] at hkv; exact h kv hkv
  | some m =>
    rw [hm] at hkv
    simp only at hkv
    rcases mem_dictSet hkv with hin | heq
    · exact h kv hin
    · rw [heq]
      apply applyMeasurement_inv
      cases hl : lookupAcc ps (t, m.pfx) with
      | none => simp only [hl, Option.getD_none]; exact emptyAcc_inv t m.pfx
      | some a => simpa only [hl, Option.getD_some] using h ((t, m.pfx), a) (lookupAcc_mem hl)

theorem aggregate_inv (rows : List (String × List String)) :
    ∀ kv ∈ aggregate rows, accInv kv.2 := by
  suffices h : ∀ ps : AccMap, (∀ kv ∈ ps, accInv kv.2) →
      ∀ kv ∈ rows.foldl (fun ps tr => addRow tr.1 ps tr.2) ps, accInv kv.2 by
    exact h [] (by simp)
  induction rows with
  | nil => intro ps hps; simpa using hps
  | cons r rs ih => intro ps hps; exact ih _ (addRow_inv hps)

/-! ## Helper lemmas: distinct keys -/

theorem addRow_nodup {t : String} {ps : AccMap} {row : List String}
    (h : (ps.map Prod.fst).Nodup) : ((addRow t ps row).map Prod.fst).Nodup := by
  unfold addRow
  cases normalizeRow row with
  | none => exact h
  | some m => exact nodup_fst_dictSet h

theorem aggregate_nodup (rows : List (String × List String)) :
    ((aggregate rows).map Prod.fst).Nodup := by
  suffices h : ∀ ps : AccMap, (ps.map Prod.fst).Nodup →
      (((rows.foldl (fun ps tr => addRow tr.1 ps tr.2) ps)).map Prod.fst).Nodup by
    exact h [] (by simp)
  induction rows with
  | nil => intro ps hps; simpa using hps
  | cons r rs ih => intro ps hps; exact ih _ (addRow_nodup hps)

/-! ## Helper lemmas: renderer -/

theorem renderAcc_length (rank : ℕ) (a : PrefixAccumulator) :
    (renderAcc rank a).length = 1 + a.breakdown.length := by
  simp [renderAcc, sortDescBy_length]
  omega

/-! ## Further helper lemmas for the claim proofs -/

theorem addRow_nil (t : String) (row : List String) (m : Measurement)
    (hm : normalizeRow row = some m) :
    addRow t [] row = [((t, m.pfx), applyMeasurement (emptyAcc t m.pfx) m)] := by
  unfold addRow
  rw [hm]
  rfl

theorem addRow_single (t : String) (row : List String) (m : Measurement)
    (k : Key) (a : PrefixAccumulator) (hm : normalizeRow row = some m)
    (hk : k = (t, m.pfx)) :
    addRow t [(k, a)] row = [((t, m.pfx), applyMeasurement a m)] := by
  unfold addRow
  rw [hm]
  subst hk
  simp [lookupAcc, dictSet]

theorem normalizeRow_garbage {row : List String} (h6 : 6 ≤ row.length)
    (hc : parseFloat? (row.getD 3 "") = none)
    (hs : parseFloat? (row.getD 4 "") = none)
    (hk : parseFloat? (row.getD 5 "") = none) :
    ∃ m, normalizeRow row = some m ∧
      m.object_count = 0 ∧ m.total_size = 0 ∧ m.estimated_cost = 0 := by
  refine ⟨_, by rw [normalizeRow, if_neg (Nat.not_lt.2 h6)], ?_, ?_, ?_⟩
  · show int_or_zero (row.getD 3 "") = 0
    unfold int_or_zero
    rw [hc]
  · show int_or_zero (row.getD 4 "") = 0
    unfold int_or_zero
    rw [hs]
  · show float_or_zero (row.getD 5 "") = 0
    unfold float_or_zero
    rw [hk]

/-! ## Claim C4 -/

/-- C4: in the ranked list returned by the Ranker, total cost is
non-increasing along the list (stated for all pairs in order, which implies
it for every adjacent pair). -/
theorem rank_ordering (topN : ℤ) (ps : AccMap) :
    (topPrefixes topN ps).Pairwise (fun x y => y.2.2.1 ≤ x.2.2.1) :=
  List.Pairwise.sublist (pyTake_sublist _ _) (pairwise_sortDescBy _ _)

/-! ## Claim C1 -/

/-- C1 counterexample: with two distinct accumulators and `TOP_N = -1`
(an integer `N ≤ 0`), the ranked list is not empty: the Python slice
`xs[:-1]` keeps all but the last element. -/
theorem topn_negative_counterexample :
    (topPrefixes (-1) (aggregate
       [("t", ["a", "STANDARD", "", "1", "10", "2.0"]),
        ("t", ["b", "STANDARD", "", "1", "10", "1.0"])])).length = 1 ∧
    topPrefixes (-1) (aggregate
       [("t", ["a", "STANDARD", "", "1", "10", "2.0"]),
        ("t", ["b", "STANDARD", "", "1", "10", "1.0"])]) ≠ [] :=
  ⟨by decide, by decide⟩

/-- C1 (amended): for every non-negative `N` the ranked list has length
`min N (number of distinct accumulators)` — so `N = 0` gives the empty list
and `N` larger than the accumulator count returns all with no padding; the
aggregated keys are pairwise distinct, so the map length is the distinct
accumulator count.  (For negative `N`, Python slice semantics apply
instead; see the counterexample.) -/
theorem topn_boundedness (rows : List (String × List String)) (topN : ℤ)
    (hn : 0 ≤ topN) :
    (topPrefixes topN (aggregate rows)).length
      = min topN.toNat (aggregate rows).length ∧
    ((aggregate rows).map Prod.fst).Nodup := by
  refine ⟨?_, aggregate_nodup rows⟩
  rw [topPrefixes, pyTake, if_pos hn, List.length_take, sortDescBy_length,
    allPrefixes, List.length_map]

/-- C1 witness: `N = 1` over two accumulators returns exactly one entry. -/
theorem topn_boundedness_witness :
    (topPrefixes 1 (aggregate
       [("t", ["a", "STANDARD", "", "1", "10", "2.0"]),
        ("t", ["b", "STANDARD", "", "1", "10", "1.0"])])).length
      = min (Int.toNat 1) (aggregate
       [("t", ["a", "STANDARD", "", "1", "10", "2.0"]),
        ("t", ["b", "STANDARD", "", "1", "10", "1.0"])]).length ∧
    ((aggregate
       [("t", ["a", "STANDARD", "", "1", "10", "2.0"]),
        ("t", ["b", "STANDARD", "", "1", "10", "1.0"])]).map Prod.fst).Nodup :=
  topn_boundedness _ 1 (by decide)

/-! ## Claim C2 -/

/-- C2 counterexample: the same tier appearing twice for one `(table, pfx)`
yields two breakdown rows, so the renderer emits 3 rows while
`1 + (distinct tiers)` is 2. -/
theorem rowcount_counterexample :
    ((aggregate [("t", ["p", "STANDARD", "", "1", "100", "2.0"]),
                 ("t", ["p", "STANDARD", "", "1", "100", "2.0"])]).map
        fun kv => (renderAcc 1 kv.2).length) = [3] ∧
    ((aggregate [("t", ["p", "STANDARD", "", "1", "100", "2.0"]),
                 ("t", ["p", "STANDARD", "", "1", "100", "2.0"])]).map
        fun kv => 1 + distinctTierCount kv.2) = [2] :=
  ⟨by decide, by decide⟩

/-- C2 (amended): the renderer emits `1 + (number of breakdown entries)`
rows per accumulator — one summary row plus one row per breakdown entry
(which equals one row per distinct tier only when no tier repeats) — and
the breakdown rows are sorted by per-entry estimated cost descending. -/
theorem rowcount_law (rank : ℕ) (a : PrefixAccumulator) :
    (renderAcc rank a).length = 1 + a.breakdown.length ∧
    (sortDescBy (fun b => b.estimated_cost_usd) a.breakdown).Pairwise
      (fun b c => c.estimated_cost_usd ≤ b.estimated_cost_usd) :=
  ⟨renderAcc_length rank a, pairwise_sortDescBy _ _⟩

/-! ## Claim C3 -/

/-- C3: every accumulator produced by aggregation has its three totals equal
to the sums of the corresponding breakdown-entry fields (exact equality in
`ℚ`, which implies the spec's 1e-9 tolerance). -/
theorem sum_invariant (rows : List (String × List String))
    (kv : Key × PrefixAccumulator) (hkv : kv ∈ aggregate rows) :
    kv.2.total_cost_usd = (kv.2.breakdown.map Breakdown.estimated_cost_usd).sum ∧
    kv.2.total_size_bytes = (kv.2.breakdown.map Breakdown.total_size_bytes).sum ∧
    kv.2.total_objects = (kv.2.breakdown.map Breakdown.object_count).sum :=
  aggregate_inv rows kv hkv

/-- C3 witness: the invariant instantiated at a concrete aggregation. -/
theorem sum_invariant_witness :
    ((("t", "a"), wAcc) : Key × PrefixAccumulator).2.total_cost_usd
      = (((("t", "a"), wAcc) : Key × PrefixAccumulator).2.breakdown.map
          Breakdown.estimated_cost_usd).sum ∧
    ((("t", "a"), wAcc) : Key × PrefixAccumulator).2.total_size_bytes
      = (((("t", "a"), wAcc) : Key × PrefixAccumulator).2.breakdown.map
          Breakdown.total_size_bytes).sum ∧
    ((("t", "a"), wAcc) : Key × PrefixAccumulator).2.total_objects
      = (((("t", "a"), wAcc) : Key × PrefixAccumulator).2.breakdown.map
          Breakdown.object_count).sum :=
  sum_invariant [("t", ["a", "STANDARD", "", "1", "2", "3.0"])]
    (("t", "a"), wAcc) (by decide)

/-! ## Claim C5 -/

/-- C5 counterexample: a parseable negative numeric field is not clamped to
zero — the row with count `"-5"` and cost `"-2.5"` produces a Measurement
with negative count and negative cost. -/
theorem negative_clamping_counterexample :
    (normalizeRow ["p", "STANDARD", "", "-5", "10", "-2.5"]).map
        Measurement.object_count = some (-5) ∧
    (normalizeRow ["p", "STANDARD", "", "-5", "10", "-2.5"]).map
        Measurement.estimated_cost = some (-(5 / 2)) :=
  ⟨by decide, by decide⟩

/-- C5 (amended): numeric fields that fail to parse are coerced to zero
(hence non-negative), but parseable negative inputs are kept as-is, so a
negative input row can put a negative value into an accumulator (see the
counterexample). -/
theorem garbage_clamped_zero (row : List String) (h6 : 6 ≤ row.length)
    (hc : parseFloat? (row.getD 3 "") = none)
    (hs : parseFloat? (row.getD 4 "") = none)
    (hk : parseFloat? (row.getD 5 "") = none) :
    ∃ m, normalizeRow row = some m ∧
      m.object_count = 0 ∧ m.total_size = 0 ∧ m.estimated_cost = 0 :=
  normalizeRow_garbage h6 hc hs hk

/-- C5 witness: all-garbage numeric fields produce the all-zero Measurement. -/
theorem garbage_clamped_zero_witness :
    ∃ m, normalizeRow ["p", "STANDARD", "", "abc", "xyz", "notanumber"] = some m ∧
      m.object_count = 0 ∧ m.total_size = 0 ∧ m.estimated_cost = 0 :=
  garbage_clamped_zero _ (by decide) (by decide) (by decide) (by decide)

/-! ## Claim C6 -/

/-- C6 counterexample: aggregating `[A, B]` and `[B, A]` for two distinct
measurements with the same key yields different accumulators — the
breakdown lists are in opposite orders. -/
theorem merge_order_counterexample :
    aggregate [("t", ["p", "STANDARD", "", "1", "100", "5.0"]),
               ("t", ["p", "GLACIER", "", "2", "50", "1.5"])] ≠
      aggregate [("t", ["p", "GLACIER", "", "2", "50", "1.5"]),
                 ("t", ["p", "STANDARD", "", "1", "100", "5.0"])] := by
  decide

/-- C6 (amended): for two rows with the same normalized key, both
aggregation orders produce a single accumulator with the same three totals,
and breakdown lists that are permutations of each other (the entries appear
in arrival order, so the accumulators are not identical for distinct
measurements). -/
theorem merge_commutes_on_totals (t : String) (r1 r2 : List String)
    (m1 m2 : Measurement) (hm1 : normalizeRow r1 = some m1)
    (hm2 : normalizeRow r2 = some m2) (hp : m1.pfx = m2.pfx) :
    aggregate [(t, r1), (t, r2)]
      = [((t, m2.pfx),
          applyMeasurement (applyMeasurement (emptyAcc t m1.pfx) m1) m2)] ∧
    aggregate [(t, r2), (t, r1)]
      = [((t, m1.pfx),
          applyMeasurement (applyMeasurement (emptyAcc t m2.pfx) m2) m1)] ∧
    (applyMeasurement (applyMeasurement (emptyAcc t m1.pfx) m1) m2).total_cost_usd
      = (applyMeasurement (applyMeasurement (emptyAcc t m2.pfx) m2) m1).total_cost_usd ∧
    (applyMeasurement (applyMeasurement (emptyAcc t m1.pfx) m1) m2).total_size_bytes
      = (applyMeasurement (applyMeasurement (emptyAcc t m2.pfx) m2) m1).total_size_bytes ∧
    (applyMeasurement (applyMeasurement (emptyAcc t m1.pfx) m1) m2).total_objects
      = (applyMeasurement (applyMeasurement (emptyAcc t m2.pfx) m2) m1).total_objects ∧
    (applyMeasurement (applyMeasurement (emptyAcc t m1.pfx) m1) m2).breakdown.Perm
      (applyMeasurement (applyMeasurement (emptyAcc t m2.pfx) m2) m1).breakdown := by
  refine ⟨?_, ?_, ?_, ?_, ?_, ?_⟩
  · show addRow t (addRow t [] r1) r2 = _
    rw [addRow_nil t r1 m1 hm1, addRow_single t r2 m2 _ _ hm2 (by rw [hp])]
  · show addRow t (addRow t [] r2) r1 = _
    rw [addRow_nil t r2 m2 hm2, addRow_single t r1 m1 _ _ hm1 (by rw [hp])]
  · simp [applyMeasurement, emptyAcc]; ring
  · simp [applyMeasurement, emptyAcc]; ring
  · simp [applyMeasurement, emptyAcc]; ring
  · simp [applyMeasurement, emptyAcc]
    exact List.Perm.swap _ _ _

/-- C6 witness: the totals equality instantiated at two concrete rows. -/
theorem merge_commutes_on_totals_witness :
    (applyMeasurement (applyMeasurement (emptyAcc "t" wM1.pfx) wM1) wM2).total_cost_usd
      = (applyMeasurement (applyMeasurement (emptyAcc "t" wM2.pfx) wM2) wM1).total_cost_usd :=
  (merge_commutes_on_totals "t" ["p", "STANDARD", "", "1", "100", "5.0"]
    ["p", "GLACIER", "", "2", "50", "1.5"] wM1 wM2 (by decide) (by decide)
    (by decide)).2.2.1

/-! ## Claim C7 -/

/-- C7: rows with fewer than 6 fields are discarded silently with no
accumulator change; otherwise the Measurement substitutes "(empty)" for an
empty first field, "UNKNOWN" for an empty storage class, keeps the access
tier verbatim, and coerces each unparseable numeric field to zero. -/
theorem row_normalization_contract (t : String) (ps : AccMap)
    (row : List String) :
    (row.length < 6 → normalizeRow row = none ∧ addRow t ps row = ps) ∧
    (6 ≤ row.length → ∃ m, normalizeRow row = some m ∧
      m.pfx = (if row.getD 0 "" = "" then "(empty)" else row.getD 0 "") ∧
      m.storage_class = (if row.getD 1 "" = "" then "UNKNOWN" else row.getD 1 "") ∧
      m.itt = row.getD 2 "" ∧
      (parseFloat? (row.getD 3 "") = none → m.object_count = 0) ∧
      (parseFloat? (row.getD 4 "") = none → m.total_size = 0) ∧
      (parseFloat? (row.getD 5 "") = none → m.estimated_cost = 0)) := by
  constructor
  · intro h
    have hn : normalizeRow row = none := by rw [normalizeRow, if_pos h]
    refine ⟨hn, ?_⟩
    unfold addRow
    rw [hn]
  · intro h
    refine ⟨_, by rw [normalizeRow, if_neg (Nat.not_lt.2 h)], rfl, rfl, rfl,
      ?_, ?_, ?_⟩
    · intro hc
      show int_or_zero (row.getD 3 "") = 0
      unfold int_or_zero
      rw [hc]
    · intro hc
      show int_or_zero (row.getD 4 "") = 0
      unfold int_or_zero
      rw [hc]
    · intro hc
      show float_or_zero (row.getD 5 "") = 0
      unfold float_or_zero
      rw [hc]

/-- C7 witness: the contract instantiated at a 1-field row and at a 6-field
row with empty prefix, empty storage class and two garbage numeric fields. -/
theorem row_normalization_contract_witness :
    (normalizeRow ["p"] = none ∧ addRow "t" [] ["p"] = []) ∧
    (∃ m, normalizeRow wRow = some m ∧
      m.pfx = (if wRow.getD 0 "" = "" then "(empty)" else wRow.getD 0 "") ∧
      m.storage_class = (if wRow.getD 1 "" = "" then "UNKNOWN" else wRow.getD 1 "") ∧
      m.itt = wRow.getD 2 "" ∧
      (parseFloat? (wRow.getD 3 "") = none → m.object_count = 0) ∧
      (parseFloat? (wRow.getD 4 "") = none → m.total_size = 0) ∧
      (parseFloat? (wRow.getD 5 "") = none → m.estimated_cost = 0)) :=
  ⟨(row_normalization_contract "t" [] ["p"]).1 (by decide),
   (row_normalization_contract "t" [] wRow).2 (by decide)⟩

/-! ## Claim C8 -/

/-- C8: size-in-GB is bytes divided by 2^30, and cost and size-in-GB are
rendered with exactly 6 fractional digits; the scenario row
`("a","STANDARD","",10,1073741824,21.0)` yields one accumulator with total
cost 21, total size 1 GiB, and rendered rows carrying the strings
"21.000000" and "1.000000". -/
theorem gib_rendering :
    (∀ n : ℤ, bytes_to_gb n = (n : ℚ) / 2 ^ 30) ∧
    ∃ a : PrefixAccumulator,
      aggregate [("t", ["a", "STANDARD", "", "10", "1073741824", "21.0"])]
        = [(("t", "a"), a)] ∧
      a.total_cost_usd = 21 ∧
      bytes_to_gb a.total_size_bytes = 1 ∧
      a.breakdown.length = 1 ∧
      renderAcc 1 a =
        [["1", "t", "a", "21.000000", "1.000000", "10", "", "", "", "", ""],
         ["1", "t", "a", "", "", "", "STANDARD", "", "10", "1.000000", "21.000000"]] := by
  constructor
  · intro n
    rw [bytes_to_gb]
    norm_num
  · refine ⟨applyMeasurement (emptyAcc "t" "a")
      { pfx := "a", storage_class := "STANDARD", itt := "", object_count := 10,
        total_size := 1073741824, estimated_cost := 21 },
      by decide, by decide, ?_, by decide, by decide⟩
    rw [show (applyMeasurement (emptyAcc "t" "a")
      { pfx := "a", storage_class := "STANDARD", itt := "", object_count := 10,
        total_size := 1073741824, estimated_cost := 21 }).total_size_bytes
        = 1073741824 by decide, bytes_to_gb]
    norm_num

/-! ## Claim C9 -/

/-- C9: a count or size field that parses as a real number is coerced to its
truncation toward zero ("3.9" to 3, "-7.9" to -7), and only values that fail
to parse as a float at all are coerced to 0. -/
theorem int_coercion_truncates :
    int_or_zero "3.9" = 3 ∧ int_or_zero "-7.9" = -7 ∧ int_or_zero "10" = 10 ∧
    (∀ s q, parseFloat? s = some q → int_or_zero s = truncQ q) ∧
    (∀ s, parseFloat? s = none → int_or_zero s = 0) := by
  refine ⟨by decide, by decide, by decide, fun s q h => ?_, fun s h => ?_⟩
  · unfold int_or_zero
    rw [h]
  · unfold int_or_zero
    rw [h]

/-- C9 witness: the truncation and failure branches at concrete inputs. -/
theorem int_coercion_truncates_witness :
    int_or_zero "2.7" = truncQ (27 / 10) ∧ int_or_zero "zz" = 0 :=
  ⟨int_coercion_truncates.2.2.2.1 "2.7" (27 / 10) (by decide),
   int_coercion_truncates.2.2.2.2 "zz" (by decide)⟩

/-! ## Claim C10 -/

/-- C10: a 6-field row whose three numeric fields are all unparseable still
creates a `(table, pfx)` accumulator with zero totals and one all-zero
breakdown entry; it counts toward the distinct-accumulator count, appears
in the ranked list, and renders as a summary row plus one breakdown row. -/
theorem zero_accumulator_still_ranked (t : String) (row : List String)
    (h6 : 6 ≤ row.length)
    (hc : parseFloat? (row.getD 3 "") = none)
    (hs : parseFloat? (row.getD 4 "") = none)
    (hk : parseFloat? (row.getD 5 "") = none) :
    ∃ k a, aggregate [(t, row)] = [(k, a)] ∧
      a.total_cost_usd = 0 ∧ a.total_size_bytes = 0 ∧ a.total_objects = 0 ∧
      (∃ b, a.breakdown = [b] ∧ b.object_count = 0 ∧ b.total_size_bytes = 0 ∧
        b.estimated_cost_usd = 0) ∧
      (aggregate [(t, row)]).length = 1 ∧
      (topPrefixes 15 (aggregate [(t, row)])).length = 1 ∧
      (renderAcc 1 a).length = 2 := by
  obtain ⟨m, hm, h1, h2, h3⟩ := normalizeRow_garbage h6 hc hs hk
  have hagg : aggregate [(t, row)] = [((t, m.pfx),
      applyMeasurement (emptyAcc t m.pfx) m)] := addRow_nil t row m hm
  refine ⟨(t, m.pfx), applyMeasurement (emptyAcc t m.pfx) m, hagg,
    ?_, ?_, ?_,
    ⟨{ storage_class := m.storage_class,
       intelligent_tiering_access_tier := m.itt,
       object_count := m.object_count, total_size_bytes := m.total_size,
       estimated_cost_usd := m.estimated_cost }, ?_, h1, h2, h3⟩,
    ?_, ?_, ?_⟩
  · simp [applyMeasurement, emptyAcc, h3]
  · simp [applyMeasurement, emptyAcc, h2]
  · simp [applyMeasurement, emptyAcc, h1]
  · simp [applyMeasurement, emptyAcc]
  · simp [hagg]
  · rw [hagg]
    show (pyTake 15 (sortDescBy _ (allPrefixes _))).length = 1
    rw [allPrefixes]
    simp only [List.map_cons, List.map_nil]
    rw [sortDescBy]
    simp only [List.foldl_cons, List.foldl_nil, insertDescBy]
    rw [pyTake, if_pos (by norm_num)]
    rfl
  · rw [renderAcc_length]
    simp [applyMeasurement, emptyAcc]

/-- C10 witness: the all-garbage row scenario at concrete inputs. -/
theorem zero_accumulator_still_ranked_witness :
    ∃ k a, aggregate [("t", ["p", "STANDARD", "", "abc", "xyz", "notanumber"])]
        = [(k, a)] ∧
      a.total_cost_usd = 0 ∧ a.total_size_bytes = 0 ∧ a.total_objects = 0 ∧
      (∃ b, a.breakdown = [b] ∧ b.object_count = 0 ∧ b.total_size_bytes = 0 ∧
        b.estimated_cost_usd = 0) ∧
      (aggregate [("t", ["p", "STANDARD", "", "abc", "xyz", "notanumber"])]).length = 1 ∧
      (topPrefixes 15 (aggregate
        [("t", ["p", "STANDARD", "", "abc", "xyz", "notanumber"])])).length = 1 ∧
      (renderAcc 1 a).length = 2 :=
  zero_accumulator_still_ranked "t" _ (by decide) (by decide) (by decide)
    (by decide)
